import Mathlib

/-!
Verification development for `infra/build_specified_commit.py`.

The module has three functions: `execute` (runs an external command,
captures stdout, optionally raises on failure), `detect_main_repo`
(builds a docker image, runs a detection probe in a container, parses its
stdout for a `Detected repo: <origin> <name>` line) and
`build_fuzzers_from_commit` (checks out a commit, then delegates to the
containerized build entry point).

The embedding is shallow: external effects (process spawning, docker,
checkout, the delegated build) are represented by an `Action` trace that
each function returns alongside its value, and the outcome of the spawned
process (its captured stdout bytes and return code) is an explicit oracle
argument.  The process is spawned with only stdout piped — stderr is not
captured, so `communicate()` always binds `err` to `None`; the embedding
fixes `err := none` rather than widening it to an oracle.  Python `bytes`
are `List Nat`, Python exceptions are the `Except` error branch, `None`
is `Option.none`.  The Unicode classes used by `str.rstrip` and the regex
(`\b` / `\w`) are modelled on their ASCII fragment, which is all the
probe protocol uses.
-/

namespace OSSFuzz

/-- The space character, code point 32 (written via `Char.ofNat` so every
character class below is explicit about code points). -/
def spaceChar : Char := Char.ofNat 32

/-- ASCII fragment of the character class stripped by Python `str.rstrip()`
(`str.isspace`): tab..carriage return (9-13), the separator controls 28-31
and space (32). -/
def pyIsSpace (c : Char) : Bool :=
  (c.toNat == 32) || (c.toNat == 9) || (c.toNat == 10) || (c.toNat == 11) ||
  (c.toNat == 12) || (c.toNat == 13) || (c.toNat == 28) || (c.toNat == 29) ||
  (c.toNat == 30) || (c.toNat == 31)

/-- `out.rstrip()` from line 98: remove trailing whitespace. -/
def pyRstrip (s : List Char) : List Char :=
  (s.reverse.dropWhile pyIsSpace).reverse

/-- ASCII fragment of the regex class `\w` (letters, digits, underscore),
used by the word-boundary `\b` in the detection pattern. -/
def isWordChar (c : Char) : Bool :=
  c.isAlphanum || (c == Char.ofNat 95)

/-- The literal marker of the detection pattern, `"Detected repo: "`
(line 98), as an explicit character list. -/
def marker : List Char :=
  ['D', 'e', 't', 'e', 'c', 't', 'e', 'd', spaceChar,
   'r', 'e', 'p', 'o', ':', spaceChar]

/-- Match a literal pattern at the head of the input, returning the rest
on success (the literal-prefix part of regex matching). -/
def stripAfter : List Char → List Char → Option (List Char)
  | [], s => some s
  | _ :: _, [] => none
  | p :: ps, c :: cs => if c == p then stripAfter ps cs else none

/-- Attempt the regex `Detected repo: ([^ ]+) ([^ ]+)` at the head of the
input (boundary already checked by the caller).  `[^ ]+` is a maximal
nonempty run of non-space characters, and since such a run cannot be
shortened to expose a space, greedy matching with backtracking succeeds
exactly when the maximal first run is followed by a space and at least one
further non-space character. -/
def tryMatch (s : List Char) : Option (List Char × List Char) :=
  match stripAfter marker s with
  | none => none
  | some rest =>
    let g1 := rest.takeWhile (fun c => c != spaceChar)
    if g1.isEmpty then none
    else
      match rest.dropWhile (fun c => c != spaceChar) with
      | [] => none
      | _ :: rest2 =>
        let g2 := rest2.takeWhile (fun c => c != spaceChar)
        if g2.isEmpty then none else some (g1, g2)

/-- Word-boundary test of `\b` before the marker: the position either
starts the string or follows a non-word character (the next character is
the word character `D`, so the boundary holds exactly then). -/
def boundaryOK : Option Char → Bool
  | none => true
  | some c => !(isWordChar c)

/-- `re.search`: scan left to right, carrying the previous character for
the word-boundary test, and return the leftmost match of
`\bDetected repo: ([^ ]+) ([^ ]+)`. -/
def searchFrom (prev : Option Char) : List Char → Option (List Char × List Char)
  | [] => none
  | c :: rest =>
    if boundaryOK prev then
      match tryMatch (c :: rest) with
      | some r => some r
      | none => searchFrom (some c) rest
    else searchFrom (some c) rest

/-- Lines 98-101: rstrip the captured output, search for the pattern, and
return the two groups when the match exists and both groups are truthy
(nonempty); otherwise `(None, None)`. -/
def detectParse (out : String) : Option String × Option String :=
  match searchFrom none (pyRstrip out.toList) with
  | some (g1, g2) =>
    if g1.isEmpty || g2.isEmpty then (none, none)
    else (some (String.mk g1), some (String.mk g2))
  | none => (none, none)

/-- The character preceding the remaining input after scanning past a
prefix: the last character of the prefix, or the character preceding the
whole scan when the prefix is empty. -/
def lastOr (prev : Option Char) (pre : List Char) : Option Char :=
  match pre.getLast? with
  | none => prev
  | some c => some c

/-- Declarative reading of "some position of the text matches the pattern
`\bDetected repo: ([^ ]+) ([^ ]+)`": after a prefix `u` that is empty or
ends in a non-word character (the `\b`), the literal marker is followed by
a nonempty space-free run, a space, and at least one further space-free
character. -/
def matchExists (s : List Char) : Prop :=
  ∃ u a b t, s = u ++ (marker ++ (a ++ spaceChar :: (b ++ t))) ∧
    a ≠ [] ∧ (∀ ch ∈ a, ch ≠ spaceChar) ∧
    b ≠ [] ∧ (∀ ch ∈ b, ch ≠ spaceChar) ∧
    (u = [] ∨ ∃ us d, u = us ++ [d] ∧ isWordChar d = false)

/-- Python truthiness of an optional string argument (`None` and `''` are
falsy, lines 77, 80, 93). -/
def truthyStr : Option String → Bool
  | none => false
  | some s => !s.isEmpty

/-- Does the string start with the path separator `/` (code point 47)? -/
def startsWithSep (s : String) : Bool :=
  match s.toList with
  | [] => false
  | c :: _ => c == Char.ofNat 47

/-- Does the string end with the path separator `/`? -/
def endsWithSep (s : String) : Bool :=
  match s.toList.getLast? with
  | none => false
  | some c => c == Char.ofNat 47

/-- `os.path.join` on POSIX paths: an absolute second component wins,
otherwise the components are joined with a single separator. -/
def pathJoin (a b : String) : String :=
  if startsWithSep b then b
  else if (a == "") || endsWithSep a then a ++ b
  else a ++ "/" ++ b

/-- Result handed back by `subprocess.Popen(...).communicate()` on
line 122: the captured stdout bytes and the process return code.  `Popen`
is invoked with `stdout=subprocess.PIPE` only — stderr is not piped — so
`communicate()` always returns `None` for `err`; `err` is therefore not
part of the oracle, and `execute` below binds it to `none`. -/
structure ProcResult where
  out : Option (List Nat)
  returncode : Int
deriving DecidableEq

/-- Python truthiness of an optional bytes value: `None` and `b''` are
falsy, nonempty bytes truthy (the `err` test on line 123 — at every
reachable state `err` is `None`, so this test is falsy and the `or err`
disjunct is dead code; it is kept to mirror the source). -/
def truthyBytes : Option (List Nat) → Bool
  | none => false
  | some bs => !bs.isEmpty

/-- Payload of the `RuntimeError` raised on line 124: the formatted
message interpolates, in order, the `err` value (always `None`, since
stderr is not captured), the command, the return code and the stdout
bytes. -/
structure RuntimeErrorData where
  err : Option (List Nat)
  command : List String
  returncode : Int
  out : Option (List Nat)
deriving DecidableEq

/-- The two exceptions `execute` can raise: the explicit `RuntimeError`
of line 124, and the `UnicodeDecodeError` implicit in
the ASCII decode of `out` on line 127. -/
inductive ExecRaise where
  | runtimeError (e : RuntimeErrorData)
  | unicodeDecodeError (bytes : List Nat)
deriving DecidableEq

/-- `bytes.decode('ascii')`: succeeds exactly when every byte is below
128, mapping each byte to the character with that code point; otherwise
Python raises `UnicodeDecodeError`, modelled as `none`. -/
def asciiDecode (bs : List Nat) : Option String :=
  if bs.all (fun b => decide (b < 128)) then
    some (String.mk (bs.map (fun b => Char.ofNat b)))
  else none

/-- Lines 119-120: `if not location: location = os.getcwd()` — the
directory the spawned process runs in. -/
def effective_location (location : Option String) (cwd : String) : String :=
  match location with
  | none => cwd
  | some l => if l.isEmpty then cwd else l

/-- Lines 104-128, `execute(command, location, check_result)`.  The
process outcome is the oracle `p` (the spawned process runs in
`effective_location location cwd`; the directory does not affect the
control flow below).  Line 122 binds `out, err = process.communicate()`
with `err = None` always, since stderr is not piped.  Line 123 raises
`RuntimeError` when `check_result` and `process.returncode or err` are
truthy — with `err` always `None` this fires exactly when the return
code is nonzero; otherwise lines 126-128 decode the stdout bytes as
ASCII (raising `UnicodeDecodeError` on a non-ASCII byte) and return
`(out, process.returncode)`. -/
def execute (command : List String) (location : Option String := none)
    (check_result : Bool := false) (p : ProcResult) :
    Except ExecRaise (Option String × Int) :=
  let err : Option (List Nat) := none
  if check_result && ((p.returncode != 0) || truthyBytes err) then
    Except.error (ExecRaise.runtimeError
      ⟨err, command, p.returncode, p.out⟩)
  else
    match p.out with
    | none => Except.ok (none, p.returncode)
    | some bs =>
      match asciiDecode bs with
      | some s => Except.ok (some s, p.returncode)
      | none => Except.error (ExecRaise.unicodeDecodeError bs)

/-- Observable external effects of the two orchestration functions, in
program order: a `print`, the call to `helper.build_image_impl`, the
container run through `execute`, the `checkout_commit` call on the repo
manager, and the call to `helper.build_fuzzers_impl` with its full
argument list. -/
inductive Action where
  | printMsg (msg : String)
  | buildImageImpl (project : String)
  | runCommand (command : List String)
  | checkoutCommit (commit : String)
  | buildFuzzersImpl (project : String) (clean : Bool)
      (engine sanitizer architecture : String)
      (env_to_add : Option (List (String × String)))
      (source_path mount_location : String)
deriving DecidableEq

/-- The `build_repo_manager` collaborator: the module reads its
`repo_dir` and `repo_name` attributes (lines 57-59). -/
structure RepoManager where
  repo_dir : String
  repo_name : String
deriving DecidableEq

/-- Lines 31-59, `build_fuzzers_from_commit`.  It checks out `commit`,
then delegates to `helper.build_fuzzers_impl` with `clean=True`,
`env_to_add=None`, the `repo_dir` of the manager as source path and
the join of `/src` with `repo_name` as mount location; `build_status` is
the oracle for the return value of the delegate, and the function returns
it unchanged. -/
def build_fuzzers_from_commit (project_name commit : String)
    (build_repo_manager : RepoManager)
    (engine : String := "libfuzzer") (sanitizer : String := "address")
    (architecture : String := "x86_64") (build_status : Int) :
    List Action × Int :=
  ([Action.checkoutCommit commit,
    Action.buildFuzzersImpl project_name true engine sanitizer architecture
      none build_repo_manager.repo_dir
      (pathJoin "/src" build_repo_manager.repo_name)],
   build_status)

/-- Lines 62-101, `detect_main_repo`.  `probe_out` is the oracle for the
decoded stdout of the container run (`out, _ = execute(command_to_run)`),
`probe_ret` its discarded return code.  The function returns the trace of
its effects together with the `(origin, name)` result. -/
def detect_main_repo (project_name : String)
    (repo_name : Option String := none) (commit : Option String := none)
    (src_dir : String := "/src") (probe_out : String) (probe_ret : Int) :
    List Action × (Option String × Option String) :=
  if !truthyStr repo_name && !truthyStr commit then
    ([Action.printMsg
        "Error: can not detect main repo without a repo_name or a commit."],
     (none, none))
  else
    (let notice :=
      if truthyStr repo_name && truthyStr commit then
        [Action.printMsg
          "Both repo name and commit specific. Using repo name for detection."]
      else []
    let docker_image_name := "gcr.io/oss-fuzz/" ++ project_name
    let command_to_run :=
      ["docker", "run", "--rm", "-t", docker_image_name, "python3",
       pathJoin src_dir "detect_repo.py", "--src_dir", src_dir] ++
      (if truthyStr repo_name then
        ["--repo_name", repo_name.getD ""]
      else
        ["--example_commit", commit.getD ""])
    (notice ++ [Action.buildImageImpl project_name,
                Action.runCommand command_to_run],
     detectParse probe_out))

/-! ## Helper lemmas -/

theorem isEmpty_false_of_ne (s : String) (h : s ≠ "") : s.isEmpty = false :=
  Bool.eq_false_iff.mpr (fun he => h ((String.isEmpty_iff s).mp he))

theorem truthyStr_of_ne (s : String) (h : s ≠ "") : truthyStr (some s) = true := by
  simp only [truthyStr, Bool.not_eq_true']
  exact isEmpty_false_of_ne s h

theorem execute_cond_false_no_runtimeError (command : List String)
    (location : Option String) (check_result : Bool) (p : ProcResult)
    (h : (check_result && (p.returncode != 0)) = false) :
    ∀ e, execute command location check_result p ≠
      Except.error (ExecRaise.runtimeError e) := by
  intro e
  unfold execute
  simp only [truthyBytes, Bool.or_false]
  rw [h]
  simp only [Bool.false_eq_true, if_false]
  cases p.out with
  | none => simp
  | some bs =>
    cases hd : asciiDecode bs with
    | none => simp [hd]
    | some s => simp [hd]

/-! ## C1 -/

/-- C1 (amended).  In strict mode `execute` raises the `RuntimeError` of
line 124 if and only if the return code is nonzero: standard error is
never captured (`Popen` pipes only stdout, so `communicate()` always
binds `err` to `None`), hence error-stream bytes written by the process
never trigger the raise, and the raised error carries `None` in place of
the error bytes, together with the command, the return code and the
captured stdout bytes.  In non-strict mode `execute` never raises that
error; when the captured stdout is absent or decodes as ASCII it returns
the captured output together with the exit code (when the stdout bytes
do not decode, a `UnicodeDecodeError` is raised instead — see C2). -/
theorem execute_strict_raises_iff (command : List String)
    (location : Option String) (p : ProcResult) :
    ((∃ e, execute command location true p =
        Except.error (ExecRaise.runtimeError e)) ↔ p.returncode ≠ 0)
    ∧ (∀ e, execute command location true p =
          Except.error (ExecRaise.runtimeError e) →
        e = ⟨none, command, p.returncode, p.out⟩)
    ∧ (∀ e, execute command location false p ≠
        Except.error (ExecRaise.runtimeError e))
    ∧ (p.out = none →
        execute command location false p = Except.ok (none, p.returncode))
    ∧ (∀ bs s, p.out = some bs → asciiDecode bs = some s →
        execute command location false p =
          Except.ok (some s, p.returncode)) := by
  refine ⟨?_, ?_, ?_, ?_, ?_⟩
  · cases hcond : (p.returncode != 0) with
    | true =>
      constructor
      · intro _
        simpa using hcond
      · intro _
        exact ⟨⟨none, command, p.returncode, p.out⟩, by
          unfold execute
          simp only [truthyBytes, Bool.or_false]
          rw [hcond]
          simp⟩
    | false =>
      constructor
      · rintro ⟨e, he⟩
        exact absurd he
          (execute_cond_false_no_runtimeError command location true p
            (by rw [hcond]; simp) e)
      · intro h
        exact absurd (by simpa using hcond : p.returncode = 0) h
  · intro e he
    cases hcond : (p.returncode != 0) with
    | true =>
      unfold execute at he
      simp only [truthyBytes, Bool.or_false] at he
      rw [hcond] at he
      simp at he
      exact he.symm
    | false =>
      exact absurd he
        (execute_cond_false_no_runtimeError command location true p
          (by rw [hcond]; simp) e)
  · exact execute_cond_false_no_runtimeError command location false p rfl
  · intro h
    unfold execute
    rw [h]
    simp
  · intro bs s hbs hdec
    unfold execute
    rw [hbs]
    simp [hdec]

/-- Witness for C1: a clean run with ASCII output returns the decoded
output and exit code (the spec scenario echo run). -/
theorem execute_strict_raises_iff_witness :
    execute ["echo", "hello"] none false ⟨some [104, 105], 0⟩ =
      Except.ok (some "hi", 0) :=
  (execute_strict_raises_iff ["echo", "hello"] none
    ⟨some [104, 105], 0⟩).2.2.2.2 [104, 105] "hi" rfl (by decide)

/-- Counterexample to C1 as stated, on both axes.  (i) In strict mode a
run with exit code 0 returns normally whatever the process wrote to its
error stream: stderr is not piped, `communicate()` always hands back
`None` for `err`, so the claimed "raises if any standard-error bytes
were produced" disjunct never fires and the error payload can never hold
stderr bytes.  (ii) With a nonzero exit code (the claimed condition) and
non-ASCII stdout, non-strict `execute` raises a `UnicodeDecodeError`
instead of returning the captured output with the exit code. -/
theorem execute_raise_condition_cex :
    execute ["cmd"] none true ⟨some [104], 0⟩ = Except.ok (some "h", 0)
    ∧ ((1 : Int) ≠ 0 ∧
      execute ["cmd"] none false ⟨some [255], 1⟩ =
        Except.error (ExecRaise.unicodeDecodeError [255])) :=
  ⟨rfl, by decide, rfl⟩

/-! ## C2 -/

/-- C2 (amended).  When the captured stdout bytes cannot be decoded as
ASCII (and the strict-mode raise of line 123 did not fire first),
`execute` raises a `UnicodeDecodeError` carrying those bytes: the raw
output is not passed through to the caller. -/
theorem execute_decode_failure_raises (command : List String)
    (location : Option String) (check_result : Bool) (p : ProcResult)
    (bs : List Nat) (hout : p.out = some bs) (hdec : asciiDecode bs = none)
    (hnc : (check_result && (p.returncode != 0)) = false) :
    execute command location check_result p =
      Except.error (ExecRaise.unicodeDecodeError bs) := by
  unfold execute
  simp only [truthyBytes, Bool.or_false]
  rw [hnc, hout]
  simp [hdec]

/-- Witness for C2 (amended): byte 254 is not ASCII and `execute`
raises the decode error on it. -/
theorem execute_decode_failure_raises_witness :
    execute ["c"] none false ⟨some [254], 0⟩ =
      Except.error (ExecRaise.unicodeDecodeError [254]) :=
  execute_decode_failure_raises ["c"] none false ⟨some [254], 0⟩
    [254] rfl (by decide) rfl

/-- Counterexample to C2 as stated: exit code 0, non-strict — the only
anomaly is the non-ASCII stdout byte 200, and `execute` raises rather
than passing the raw bytes through. -/
theorem execute_decode_passthrough_cex :
    execute ["cmd"] none false ⟨some [200], 0⟩ =
      Except.error (ExecRaise.unicodeDecodeError [200]) := rfl

/-! ## C5 -/

/-- C5.  With neither `repo_name` nor `commit` supplied,
`detect_main_repo` only prints the diagnostic and returns `(None, None)`:
the effect trace contains no image build and no container run, for every
project, source directory and probe oracle. -/
theorem detect_main_repo_no_anchor_no_effects
    (project_name src_dir probe_out : String) (probe_ret : Int) :
    detect_main_repo project_name none none src_dir probe_out probe_ret =
      ([Action.printMsg
          "Error: can not detect main repo without a repo_name or a commit."],
       (none, none)) := rfl

/-! ## C8 -/

/-- C8.  `build_fuzzers_from_commit` first checks out the commit, then
delegates to `helper.build_fuzzers_impl` with the project name,
`clean=True`, the given engine/sanitizer/architecture, no environment
overrides, the `repo_dir` of the manager as source path and
`/src/ ++ repo_name` as mount location (the `os.path.join` of line 58,
for any repo name that is not an absolute path), and returns the status
of the delegate unchanged. -/
theorem build_fuzzers_from_commit_delegation (project_name commit : String)
    (m : RepoManager) (engine sanitizer architecture : String)
    (build_status : Int) (h : startsWithSep m.repo_name = false) :
    build_fuzzers_from_commit project_name commit m engine sanitizer
        architecture build_status =
      ([Action.checkoutCommit commit,
        Action.buildFuzzersImpl project_name true engine sanitizer
          architecture none m.repo_dir ("/src/" ++ m.repo_name)],
       build_status) := by
  have hj : pathJoin "/src" m.repo_name = "/src/" ++ m.repo_name := by
    unfold pathJoin
    rw [h]
    simp only [Bool.false_eq_true, if_false]
    rw [show (("/src" == "") || endsWithSep "/src") = false from rfl]
    simp only [Bool.false_eq_true, if_false]
    rw [show ("/src" ++ "/" : String) = "/src/" from rfl]
  unfold build_fuzzers_from_commit
  rw [hj]

/-- Witness for C8: repo name `y` gives mount location `/src/y`. -/
theorem build_fuzzers_from_commit_delegation_witness :
    build_fuzzers_from_commit "proj" "abc123" ⟨"/tmp/repo", "y"⟩ "libfuzzer"
        "address" "x86_64" 0 =
      ([Action.checkoutCommit "abc123",
        Action.buildFuzzersImpl "proj" true "libfuzzer" "address" "x86_64"
          none "/tmp/repo" "/src/y"],
       0) :=
  build_fuzzers_from_commit_delegation "proj" "abc123" ⟨"/tmp/repo", "y"⟩
    "libfuzzer" "address" "x86_64" 0 (by decide)

/-! ## C6 -/

/-- C6.  With both `repo_name` and `commit` supplied (nonempty), the
notice that the commit is ignored is printed and the composed container
command passes `--src_dir` and then `--repo_name <repo_name>` as its only
selector — `--example_commit` is never appended. -/
theorem detect_main_repo_both_uses_repo_name (project_name rn c : String)
    (src_dir probe_out : String) (probe_ret : Int)
    (hr : rn ≠ "") (hc : c ≠ "") :
    (detect_main_repo project_name (some rn) (some c) src_dir probe_out
        probe_ret).fst =
      [Action.printMsg
        "Both repo name and commit specific. Using repo name for detection.",
       Action.buildImageImpl project_name,
       Action.runCommand
        (["docker", "run", "--rm", "-t", "gcr.io/oss-fuzz/" ++ project_name,
          "python3", pathJoin src_dir "detect_repo.py", "--src_dir",
          src_dir] ++ ["--repo_name", rn])] := by
  have hr' := truthyStr_of_ne rn hr
  have hc' := truthyStr_of_ne c hc
  simp [detect_main_repo, hr', hc']

/-- Witness for C6 at a concrete call. -/
theorem detect_main_repo_both_uses_repo_name_witness :
    (detect_main_repo "proj" (some "myrepo") (some "badbeef") "/src" "" 0).fst =
      [Action.printMsg
        "Both repo name and commit specific. Using repo name for detection.",
       Action.buildImageImpl "proj",
       Action.runCommand
        (["docker", "run", "--rm", "-t", "gcr.io/oss-fuzz/" ++ "proj",
          "python3", pathJoin "/src" "detect_repo.py", "--src_dir",
          "/src"] ++ ["--repo_name", "myrepo"])] :=
  detect_main_repo_both_uses_repo_name "proj" "myrepo" "badbeef" "/src" "" 0
    (by decide) (by decide)

/-! ## C7 -/

/-- C7.  Ordering invariants: in `build_fuzzers_from_commit` the
`checkout_commit` call occurs at a strictly earlier trace position than
the `build_fuzzers_impl` delegation, and in `detect_main_repo` (whenever
it proceeds past the fail-fast check) the `build_image_impl` call occurs
at a strictly earlier trace position than the container run. -/
theorem checkout_before_build_and_image_before_run
    (project_name commit : String) (m : RepoManager)
    (engine sanitizer architecture : String) (build_status : Int)
    (pn2 : String) (rn c : Option String) (src_dir probe_out : String)
    (probe_ret : Int)
    (h : truthyStr rn = true ∨ truthyStr c = true) :
    (∃ i j, i < j ∧
      (build_fuzzers_from_commit project_name commit m engine sanitizer
          architecture build_status).fst.get? i =
        some (Action.checkoutCommit commit) ∧
      ∃ sp ml,
        (build_fuzzers_from_commit project_name commit m engine sanitizer
            architecture build_status).fst.get? j =
          some (Action.buildFuzzersImpl project_name true engine sanitizer
            architecture none sp ml))
    ∧ (∃ i j, i < j ∧
      (detect_main_repo pn2 rn c src_dir probe_out probe_ret).fst.get? i =
        some (Action.buildImageImpl pn2) ∧
      ∃ cmd,
        (detect_main_repo pn2 rn c src_dir probe_out probe_ret).fst.get? j =
          some (Action.runCommand cmd)) := by
  constructor
  · exact ⟨0, 1, by omega, rfl,
      m.repo_dir, pathJoin "/src" m.repo_name, rfl⟩
  · cases hr : truthyStr rn with
    | true =>
      cases hcc : truthyStr c with
      | true =>
        have ht : (detect_main_repo pn2 rn c src_dir probe_out
            probe_ret).fst =
          [Action.printMsg
            "Both repo name and commit specific. Using repo name for detection.",
           Action.buildImageImpl pn2,
           Action.runCommand
            (["docker", "run", "--rm", "-t", "gcr.io/oss-fuzz/" ++ pn2,
              "python3", pathJoin src_dir "detect_repo.py", "--src_dir",
              src_dir] ++ ["--repo_name", rn.getD ""])] := by
          simp [detect_main_repo, hr, hcc]
        exact ⟨1, 2, by omega, by rw [ht]; rfl,
          ["docker", "run", "--rm", "-t", "gcr.io/oss-fuzz/" ++ pn2,
           "python3", pathJoin src_dir "detect_repo.py", "--src_dir",
           src_dir] ++ ["--repo_name", rn.getD ""], by rw [ht]; rfl⟩
      | false =>
        have ht : (detect_main_repo pn2 rn c src_dir probe_out
            probe_ret).fst =
          [Action.buildImageImpl pn2,
           Action.runCommand
            (["docker", "run", "--rm", "-t", "gcr.io/oss-fuzz/" ++ pn2,
              "python3", pathJoin src_dir "detect_repo.py", "--src_dir",
              src_dir] ++ ["--repo_name", rn.getD ""])] := by
          simp [detect_main_repo, hr, hcc]
        exact ⟨0, 1, by omega, by rw [ht]; rfl,
          ["docker", "run", "--rm", "-t", "gcr.io/oss-fuzz/" ++ pn2,
           "python3", pathJoin src_dir "detect_repo.py", "--src_dir",
           src_dir] ++ ["--repo_name", rn.getD ""], by rw [ht]; rfl⟩
    | false =>
      cases hcc : truthyStr c with
      | true =>
        have ht : (detect_main_repo pn2 rn c src_dir probe_out
            probe_ret).fst =
          [Action.buildImageImpl pn2,
           Action.runCommand
            (["docker", "run", "--rm", "-t", "gcr.io/oss-fuzz/" ++ pn2,
              "python3", pathJoin src_dir "detect_repo.py", "--src_dir",
              src_dir] ++ ["--example_commit", c.getD ""])] := by
          simp [detect_main_repo, hr, hcc]
        exact ⟨0, 1, by omega, by rw [ht]; rfl,
          ["docker", "run", "--rm", "-t", "gcr.io/oss-fuzz/" ++ pn2,
           "python3", pathJoin src_dir "detect_repo.py", "--src_dir",
           src_dir] ++ ["--example_commit", c.getD ""], by rw [ht]; rfl⟩
      | false =>
        rcases h with h | h
        · exact absurd h (by simp [hr])
        · exact absurd h (by simp [hcc])

/-- Witness for C7 at a concrete call. -/
theorem checkout_before_build_and_image_before_run_witness :
    (∃ i j, i < j ∧
      (build_fuzzers_from_commit "p" "abc" ⟨"/tmp/r", "r"⟩ "libfuzzer"
          "address" "x86_64" 0).fst.get? i =
        some (Action.checkoutCommit "abc") ∧
      ∃ sp ml,
        (build_fuzzers_from_commit "p" "abc" ⟨"/tmp/r", "r"⟩ "libfuzzer"
            "address" "x86_64" 0).fst.get? j =
          some (Action.buildFuzzersImpl "p" true "libfuzzer" "address"
            "x86_64" none sp ml))
    ∧ (∃ i j, i < j ∧
      (detect_main_repo "q" (some "rn") none "/src" "out" 0).fst.get? i =
        some (Action.buildImageImpl "q") ∧
      ∃ cmd,
        (detect_main_repo "q" (some "rn") none "/src" "out" 0).fst.get? j =
          some (Action.runCommand cmd)) :=
  checkout_before_build_and_image_before_run "p" "abc" ⟨"/tmp/r", "r"⟩
    "libfuzzer" "address" "x86_64" 0 "q" (some "rn") none "/src" "out" 0
    (Or.inl (by decide))

/-! ## C9 -/

/-- C9.  Being "supplied" is decided by Python truthiness: an empty
`repo_name` with a nonempty commit takes the `--example_commit` branch
(the empty repo name does not win), and two empty strings take the
fail-fast branch exactly like two `None`s. -/
theorem detect_main_repo_truthiness (project_name src_dir probe_out : String)
    (probe_ret : Int) (c : String) (hc : c ≠ "") :
    (detect_main_repo project_name (some "") (some c) src_dir probe_out
        probe_ret).fst =
      [Action.buildImageImpl project_name,
       Action.runCommand
        (["docker", "run", "--rm", "-t", "gcr.io/oss-fuzz/" ++ project_name,
          "python3", pathJoin src_dir "detect_repo.py", "--src_dir",
          src_dir] ++ ["--example_commit", c])]
    ∧ detect_main_repo project_name (some "") (some "") src_dir probe_out
        probe_ret =
      ([Action.printMsg
          "Error: can not detect main repo without a repo_name or a commit."],
       (none, none)) := by
  constructor
  · simp [detect_main_repo, truthyStr, isEmpty_false_of_ne c hc,
      (show ("" : String).isEmpty = true from rfl)]
  · rfl

/-- Witness for C9 at a concrete call. -/
theorem detect_main_repo_truthiness_witness :
    (detect_main_repo "proj" (some "") (some "badbeef") "/src" "" 0).fst =
      [Action.buildImageImpl "proj",
       Action.runCommand
        (["docker", "run", "--rm", "-t", "gcr.io/oss-fuzz/" ++ "proj",
          "python3", pathJoin "/src" "detect_repo.py", "--src_dir",
          "/src"] ++ ["--example_commit", "badbeef"])]
    ∧ detect_main_repo "proj" (some "") (some "") "/src" "" 0 =
      ([Action.printMsg
          "Error: can not detect main repo without a repo_name or a commit."],
       (none, none)) :=
  detect_main_repo_truthiness "proj" "/src" "" 0 "badbeef" (by decide)

/-! ## C10 -/

/-- C10.  The result of `detect_main_repo` depends only on the captured
stdout text of the container run, never on its exit code: whenever the
parse of the output yields a pair, that pair is returned whatever the
exit code (nonzero included), and the result is identical for any two
exit codes. -/
theorem detect_main_repo_ignores_exit_code
    (project_name src_dir probe_out : String) (rn c : Option String)
    (r1 r2 : Int) (x y : String)
    (h1 : truthyStr rn = true ∨ truthyStr c = true)
    (h2 : detectParse probe_out = (some x, some y)) :
    (detect_main_repo project_name rn c src_dir probe_out r1).snd =
      (some x, some y)
    ∧ (detect_main_repo project_name rn c src_dir probe_out r1).snd =
      (detect_main_repo project_name rn c src_dir probe_out r2).snd := by
  constructor
  · cases hr : truthyStr rn with
    | true => simpa [detect_main_repo, hr] using h2
    | false =>
      cases hcc : truthyStr c with
      | true => simpa [detect_main_repo, hr, hcc] using h2
      | false =>
        rcases h1 with h | h
        · exact absurd h (by simp [hr])
        · exact absurd h (by simp [hcc])
  · cases hr : truthyStr rn <;> cases hcc : truthyStr c <;>
      simp [detect_main_repo, hr, hcc]

/-- Witness for C10: exit code 1 and exit code 7 both return the parsed
pair. -/
theorem detect_main_repo_ignores_exit_code_witness :
    (detect_main_repo "proj" (some "rn") none "/src" "Detected repo: o n"
        1).snd = (some "o", some "n")
    ∧ (detect_main_repo "proj" (some "rn") none "/src" "Detected repo: o n"
        1).snd =
      (detect_main_repo "proj" (some "rn") none "/src" "Detected repo: o n"
        7).snd :=
  detect_main_repo_ignores_exit_code "proj" "/src" "Detected repo: o n"
    (some "rn") none 1 7 "o" "n" (Or.inl (by decide)) (by decide)

/-! ## Regex-machinery lemmas for C3 and C4 -/



theorem stripAfter_append (p t : List Char) : stripAfter p (p ++ t) = some t := by
  induction p with
  | nil => rfl
  | cons x xs ih => simp [stripAfter, ih]

theorem stripAfter_some (p : List Char) : ∀ s t, stripAfter p s = some t → s = p ++ t := by
  induction p with
  | nil => intro s t h; simpa [stripAfter] using h
  | cons x xs ih =>
    intro s t h
    cases s with
    | nil => simp [stripAfter] at h
    | cons c cs =>
      by_cases hc : (c == x) = true
      · have := ih cs t (by simpa [stripAfter, hc] using h)
        simp [this, beq_iff_eq.mp hc]
      · simp [stripAfter, hc] at h

theorem takeWhile_eq_self_of_all (p : Char → Bool) (l : List Char)
    (h : ∀ c ∈ l, p c = true) : l.takeWhile p = l := by
  induction l with
  | nil => rfl
  | cons x xs ih =>
    simp [List.takeWhile_cons, h x (by simp), ih (fun c hc => h c (by simp [hc]))]

theorem takeWhile_append_all (p : Char → Bool) (a b : List Char)
    (h : ∀ c ∈ a, p c = true) : (a ++ b).takeWhile p = a ++ b.takeWhile p := by
  induction a with
  | nil => rfl
  | cons x xs ih =>
    simp [List.takeWhile_cons, h x (by simp), ih (fun c hc => h c (by simp [hc]))]

theorem dropWhile_append_all (p : Char → Bool) (a b : List Char)
    (h : ∀ c ∈ a, p c = true) : (a ++ b).dropWhile p = b.dropWhile p := by
  induction a with
  | nil => rfl
  | cons x xs ih =>
    simp [List.dropWhile_cons, h x (by simp), ih (fun c hc => h c (by simp [hc]))]

theorem mem_takeWhile_pred (p : Char → Bool) (l : List Char) (c : Char)
    (h : c ∈ l.takeWhile p) : p c = true := by
  induction l with
  | nil => simp [List.takeWhile] at h
  | cons x xs ih =>
    by_cases hx : p x = true
    · rcases (by simpa [List.takeWhile_cons, hx] using h : c = x ∨ c ∈ xs.takeWhile p) with h1 | h1
      · rw [h1]; exact hx
      · exact ih h1
    · have hx' : p x = false := Bool.eq_false_iff.mpr hx
      simp [List.takeWhile_cons, hx'] at h

theorem dropWhile_head_pred_false (p : Char → Bool) (l : List Char) (c : Char)
    (t : List Char) (h : l.dropWhile p = c :: t) : p c = false := by
  induction l with
  | nil => simp [List.dropWhile] at h
  | cons x xs ih =>
    by_cases hx : p x = true
    · exact ih (by simpa [List.dropWhile_cons, hx] using h)
    · have hx' : p x = false := Bool.eq_false_iff.mpr hx
      rw [List.dropWhile_cons, hx'] at h
      simp at h
      rw [← h.1]
      exact hx'



theorem bne_space_of_not_space (ch : Char) (h : pyIsSpace ch = false) :
    (ch != spaceChar) = true := by
  refine bne_iff_ne.mpr (fun he => ?_)
  rw [he] at h
  simp [pyIsSpace, spaceChar] at h

theorem tryMatch_append (X Y : List Char) (hX : X ≠ [])
    (hXs : ∀ ch ∈ X, (ch != spaceChar) = true) (hY : Y ≠ [])
    (hYs : ∀ ch ∈ Y, (ch != spaceChar) = true) :
    tryMatch (marker ++ (X ++ spaceChar :: Y)) = some (X, Y) := by
  have h1 : (X ++ spaceChar :: Y).takeWhile (fun c => c != spaceChar) = X := by
    rw [takeWhile_append_all _ _ _ hXs]
    simp [List.takeWhile_cons]
  have h2 : (X ++ spaceChar :: Y).dropWhile (fun c => c != spaceChar) =
      spaceChar :: Y := by
    rw [dropWhile_append_all _ _ _ hXs]
    simp [List.dropWhile_cons]
  have hX' : X.isEmpty = false := by
    cases X with
    | nil => exact absurd rfl hX
    | cons a as => rfl
  have hY2 : Y.takeWhile (fun c => c != spaceChar) = Y :=
    takeWhile_eq_self_of_all _ _ hYs
  have hY' : Y.isEmpty = false := by
    cases Y with
    | nil => exact absurd rfl hY
    | cons a as => rfl
  simp [tryMatch, stripAfter_append, h1, h2, hX', hY2, hY']

theorem tryMatch_none_of_head (c : Char) (cs : List Char) (h : c ≠ 'D') :
    tryMatch (c :: cs) = none := by
  unfold tryMatch marker
  simp [stripAfter, beq_eq_false_iff_ne.mpr h]

theorem tryMatch_some (s : List Char) (x y : List Char)
    (h : tryMatch s = some (x, y)) :
    ∃ t, s = marker ++ (x ++ spaceChar :: (y ++ t)) ∧
      x ≠ [] ∧ (∀ ch ∈ x, ch ≠ spaceChar) ∧
      y ≠ [] ∧ (∀ ch ∈ y, ch ≠ spaceChar) := by
  unfold tryMatch at h
  cases hs : stripAfter marker s with
  | none => rw [hs] at h; exact absurd h (by simp)
  | some rest =>
    rw [hs] at h
    simp only at h
    by_cases he1 : (rest.takeWhile (fun c => c != spaceChar)).isEmpty = true
    · rw [if_pos he1] at h; exact absurd h (by simp)
    rw [if_neg he1] at h
    cases hd : rest.dropWhile (fun c => c != spaceChar) with
    | nil => rw [hd] at h; exact absurd h (by simp)
    | cons d rest2 =>
      rw [hd] at h
      simp only at h
      by_cases he2 : (rest2.takeWhile (fun c => c != spaceChar)).isEmpty = true
      · rw [if_pos he2] at h; exact absurd h (by simp)
      rw [if_neg he2] at h
      have hx : x = rest.takeWhile (fun c => c != spaceChar) := by
        have := (Option.some_inj.mp h)
        exact (congrArg Prod.fst this).symm
      have hy : y = rest2.takeWhile (fun c => c != spaceChar) := by
        have := (Option.some_inj.mp h)
        exact (congrArg Prod.snd this).symm
      have hrest : s = marker ++ rest := stripAfter_some marker s rest hs
      have hdC : d = spaceChar := by
        have := dropWhile_head_pred_false _ rest d rest2 hd
        simpa using this
      have hsplit : rest = x ++ spaceChar :: (y ++ rest2.dropWhile (fun c => c != spaceChar)) := by
        calc rest = rest.takeWhile (fun c => c != spaceChar) ++
            rest.dropWhile (fun c => c != spaceChar) :=
              (List.takeWhile_append_dropWhile _ _).symm
        _ = x ++ (d :: rest2) := by rw [← hx, hd]
        _ = x ++ spaceChar :: (y ++ rest2.dropWhile (fun c => c != spaceChar)) := by
            rw [hdC]
            have : rest2 = y ++ rest2.dropWhile (fun c => c != spaceChar) := by
              conv_lhs => rw [← List.takeWhile_append_dropWhile (fun c => c != spaceChar) rest2]
              rw [← hy]
            rw [← this]
      refine ⟨rest2.dropWhile (fun c => c != spaceChar), by rw [hrest, hsplit], ?_, ?_, ?_, ?_⟩
      · intro hxe; rw [hxe] at hx; rw [← hx] at he1; exact he1 rfl
      · intro ch hch
        exact bne_iff_ne.mp (mem_takeWhile_pred _ rest ch (hx ▸ hch))
      · intro hye; rw [hye] at hy; rw [← hy] at he2; exact he2 rfl
      · intro ch hch
        exact bne_iff_ne.mp (mem_takeWhile_pred _ rest2 ch (hy ▸ hch))



theorem lastOr_cons (prev : Option Char) (c : Char) (ps : List Char) :
    lastOr prev (c :: ps) = lastOr (some c) ps := by
  cases ps with
  | nil => rfl
  | cons d ds =>
    cases hg : (d :: ds).getLast? with
    | none => exact absurd (List.getLast?_eq_none_iff.mp hg) (by simp)
    | some e => simp [lastOr, List.getLast?_cons_cons, hg]

theorem searchFrom_append_no_D (pre : List Char) :
    ∀ (prev : Option Char) (s : List Char), 'D' ∉ pre →
      searchFrom prev (pre ++ s) = searchFrom (lastOr prev pre) s := by
  induction pre with
  | nil => intro prev s _; rfl
  | cons x xs ih =>
    intro prev s h
    have hx : x ≠ 'D' := fun he => h (by simp [he])
    have hm := tryMatch_none_of_head x (xs ++ s) hx
    rw [List.cons_append]
    have hstep : searchFrom prev (x :: (xs ++ s)) = searchFrom (some x) (xs ++ s) := by
      by_cases hb : boundaryOK prev = true
      · simp [searchFrom, hb, hm]
      · simp [searchFrom, Bool.eq_false_iff.mpr hb]
    rw [hstep, ih (some x) s (fun hd => h (by simp [hd])), lastOr_cons]

theorem searchFrom_cons_match (prev : Option Char) (c : Char)
    (cs : List Char) (r : List Char × List Char) (hb : boundaryOK prev = true)
    (hm : tryMatch (c :: cs) = some r) :
    searchFrom prev (c :: cs) = some r := by
  rw [searchFrom, if_pos hb, hm]

theorem searchFrom_match_here (prev : Option Char) (R : List Char)
    (r : List Char × List Char) (hb : boundaryOK prev = true)
    (hm : tryMatch (marker ++ R) = some r) :
    searchFrom prev (marker ++ R) = some r := by
  rw [show marker ++ R = 'D' ::
    (['e', 't', 'e', 'c', 't', 'e', 'd', spaceChar,
      'r', 'e', 'p', 'o', ':', spaceChar] ++ R) from rfl] at hm ⊢
  exact searchFrom_cons_match prev _ _ r hb hm

theorem searchFrom_some_split :
    ∀ (s : List Char) (prev : Option Char) (r : List Char × List Char),
      searchFrom prev s = some r →
      ∃ u v, s = u ++ v ∧ tryMatch v = some r ∧
        ((u = [] ∧ boundaryOK prev = true) ∨
          ∃ us d, u = us ++ [d] ∧ isWordChar d = false) := by
  intro s
  induction s with
  | nil => intro prev r h; exact absurd h (by simp [searchFrom])
  | cons c rest ih =>
    intro prev r h
    by_cases hb : boundaryOK prev = true
    · cases hm : tryMatch (c :: rest) with
      | some r' =>
        have : r' = r := by
          have := h
          rw [searchFrom, if_pos hb, hm] at this
          exact Option.some_inj.mp this
        exact ⟨[], c :: rest, rfl, by rw [hm, this], Or.inl ⟨rfl, hb⟩⟩
      | none =>
        have h' : searchFrom (some c) rest = some r := by
          have := h
          rw [searchFrom, if_pos hb, hm] at this
          exact this
        rcases ih (some c) r h' with ⟨u', v', hsp, hm', hcond⟩
        refine ⟨c :: u', v', by rw [hsp, List.cons_append], hm', ?_⟩
        rcases hcond with ⟨hu0, hbc⟩ | ⟨us, d, hud, hw⟩
        · refine Or.inr ⟨[], c, by rw [hu0]; rfl, ?_⟩
          have : (!(isWordChar c)) = true := by simpa [boundaryOK] using hbc
          simpa using this
        · exact Or.inr ⟨c :: us, d, by rw [hud, List.cons_append], hw⟩
    · have hb' : boundaryOK prev = false := Bool.eq_false_iff.mpr hb
      have h' : searchFrom (some c) rest = some r := by
        have := h
        rw [searchFrom, hb'] at this
        simpa using this
      rcases ih (some c) r h' with ⟨u', v', hsp, hm', hcond⟩
      refine ⟨c :: u', v', by rw [hsp, List.cons_append], hm', ?_⟩
      rcases hcond with ⟨hu0, hbc⟩ | ⟨us, d, hud, hw⟩
      · refine Or.inr ⟨[], c, by rw [hu0]; rfl, ?_⟩
        have : (!(isWordChar c)) = true := by simpa [boundaryOK] using hbc
        simpa using this
      · exact Or.inr ⟨c :: us, d, by rw [hud, List.cons_append], hw⟩

theorem matchExists_of_searchFrom_some (s : List Char)
    (r : List Char × List Char) (h : searchFrom none s = some r) :
    matchExists s := by
  rcases searchFrom_some_split s none r h with ⟨u, v, hsp, hm, hcond⟩
  rcases tryMatch_some v r.1 r.2 (by rw [hm]) with ⟨t, hv, hx, hxs, hy, hys⟩
  refine ⟨u, r.1, r.2, t, by rw [hsp, hv], hx, hxs, hy, hys, ?_⟩
  rcases hcond with ⟨hu0, _⟩ | ⟨us, d, hud, hw⟩
  · exact Or.inl hu0
  · exact Or.inr ⟨us, d, hud, hw⟩

theorem not_matchExists_of_no_D (s : List Char) (h : 'D' ∉ s) :
    ¬ matchExists s := by
  rintro ⟨u, a, b, t, heq, -, -, -, -, -⟩
  apply h
  rw [heq]
  have hD : 'D' ∈ marker := by decide
  exact List.mem_append.mpr (Or.inr (List.mem_append.mpr (Or.inl hD)))

theorem dropWhile_cons_false (p : Char → Bool) (c : Char) (l : List Char)
    (h : p c = false) : (c :: l).dropWhile p = c :: l := by
  simp [List.dropWhile_cons, h]

theorem pyRstrip_append_of_trailing (B Y trail : List Char) (hY : Y ≠ [])
    (hYs : ∀ ch ∈ Y, pyIsSpace ch = false)
    (htrail : ∀ ch ∈ trail, pyIsSpace ch = true) :
    pyRstrip ((B ++ Y) ++ trail) = B ++ Y := by
  unfold pyRstrip
  rw [List.reverse_append, List.reverse_append]
  rw [dropWhile_append_all _ _ _ (fun ch hc => htrail ch (List.mem_reverse.mp hc))]
  cases hYr : Y.reverse with
  | nil => exact absurd (by simpa using congrArg List.reverse hYr) hY
  | cons yl ytl =>
    have hyl : pyIsSpace yl = false :=
      hYs yl (List.mem_reverse.mp (by rw [hYr]; simp))
    rw [List.cons_append, dropWhile_cons_false _ _ _ hyl]
    rw [← List.cons_append, ← hYr, ← List.reverse_append, List.reverse_reverse]



/-! ## C4 -/

/-- C4.  For every probe stdout text in which no position matches the
pattern `\bDetected repo: ([^ ]+) ([^ ]+)` (no word-boundary occurrence
of the marker followed by a nonempty space-free run, a space and a
further space-free character — `matchExists`), `detect_main_repo`
returns `(None, None)` and raises nothing. -/
theorem detect_main_repo_no_match_returns_none
    (project_name src_dir probe_out : String) (rn c : Option String)
    (probe_ret : Int)
    (h : ¬ matchExists (pyRstrip probe_out.toList)) :
    (detect_main_repo project_name rn c src_dir probe_out probe_ret).snd =
      (none, none) := by
  have hparse : detectParse probe_out = (none, none) := by
    unfold detectParse
    cases hs : searchFrom none (pyRstrip probe_out.toList) with
    | none => rfl
    | some r => exact absurd (matchExists_of_searchFrom_some _ r hs) h
  cases hr : truthyStr rn <;> cases hcc : truthyStr c <;>
    simp [detect_main_repo, hr, hcc, hparse]

/-- Witness for C4: an output that never mentions the marker. -/
theorem detect_main_repo_no_match_returns_none_witness :
    (detect_main_repo "proj" (some "nm") none "/src" "no repo found" 0).snd =
      (none, none) :=
  detect_main_repo_no_match_returns_none "proj" "/src" "no repo found"
    (some "nm") none 0 (not_matchExists_of_no_D _ (by decide))

/-! ## C3 -/

/-- C3 (amended).  For every probe stdout of the form
`pre ++ "Detected repo: " ++ X ++ " " ++ Y ++ trailing-whitespace` where
`pre` contains no `D` and ends at a word boundary, `X` is a nonempty
maximal run of non-space characters and `Y` a nonempty run of
non-whitespace characters followed only by trailing whitespace (so the
matched tokens end the output), `detect_main_repo` returns exactly
`(X, Y)`.  The captured groups are maximal runs of non-SPACE characters
(`[^ ]+`), not non-whitespace runs: when further non-whitespace lines
follow the matched line, the second group absorbs the line break and the
following text (see the counterexample). -/
theorem detect_main_repo_parses_detected_line
    (project_name src_dir probe_out : String) (rn c : Option String)
    (probe_ret : Int) (pre X Y trail : List Char)
    (hsplit : probe_out.toList =
      (pre ++ (marker ++ (X ++ spaceChar :: Y))) ++ trail)
    (hpre : 'D' ∉ pre)
    (hb : boundaryOK (lastOr none pre) = true)
    (hX : X ≠ []) (hXs : ∀ ch ∈ X, (ch != spaceChar) = true)
    (hY : Y ≠ []) (hYs : ∀ ch ∈ Y, pyIsSpace ch = false)
    (htrail : ∀ ch ∈ trail, pyIsSpace ch = true)
    (htr : truthyStr rn = true ∨ truthyStr c = true) :
    (detect_main_repo project_name rn c src_dir probe_out probe_ret).snd =
      (some (String.mk X), some (String.mk Y)) := by
  have hYs' : ∀ ch ∈ Y, (ch != spaceChar) = true :=
    fun ch hc => bne_space_of_not_space ch (hYs ch hc)
  have hstrip : pyRstrip probe_out.toList =
      pre ++ (marker ++ (X ++ spaceChar :: Y)) := by
    rw [hsplit]
    have hre := pyRstrip_append_of_trailing
      (pre ++ (marker ++ (X ++ [spaceChar]))) Y trail hY hYs htrail
    rw [show (pre ++ (marker ++ (X ++ [spaceChar]))) ++ Y
        = pre ++ (marker ++ (X ++ spaceChar :: Y)) by
      simp [List.append_assoc]] at hre
    exact hre
  have hsearch : searchFrom none (pyRstrip probe_out.toList) =
      some (X, Y) := by
    rw [hstrip]
    rw [searchFrom_append_no_D pre none (marker ++ (X ++ spaceChar :: Y)) hpre]
    exact searchFrom_match_here _ _ _ hb (tryMatch_append X Y hX hXs hY hYs')
  have hX' : X.isEmpty = false := by
    cases X with
    | nil => exact absurd rfl hX
    | cons a as => rfl
  have hY' : Y.isEmpty = false := by
    cases Y with
    | nil => exact absurd rfl hY
    | cons a as => rfl
  have hparse : detectParse probe_out =
      (some (String.mk X), some (String.mk Y)) := by
    unfold detectParse
    rw [hsearch]
    simp [hX', hY']
  cases hr : truthyStr rn with
  | true => simpa [detect_main_repo, hr] using hparse
  | false =>
    cases hcc : truthyStr c with
    | true => simpa [detect_main_repo, hr, hcc] using hparse
    | false =>
      rcases htr with h | h
      · exact absurd h (by simp [hr])
      · exact absurd h (by simp [hcc])

/-- Witness for C3 (amended) at the spec scenario: preamble line, probe
line, trailing newline. -/
theorem detect_main_repo_parses_detected_line_witness :
    (detect_main_repo "proj" (some "x") none "/src"
        "some preamble\nDetected repo: https://github.com/x/y.git y\n" 0).snd =
      (some (String.mk "https://github.com/x/y.git".toList),
       some (String.mk "y".toList)) :=
  detect_main_repo_parses_detected_line "proj" "/src"
    "some preamble\nDetected repo: https://github.com/x/y.git y\n"
    (some "x") none 0 "some preamble\n".toList
    "https://github.com/x/y.git".toList "y".toList [Char.ofNat 10]
    (by decide) (by decide) (by decide) (by decide) (by decide) (by decide)
    (by decide) (by decide) (Or.inl (by decide))

/-- Counterexample to C3 as stated: the output contains the line
`Detected repo: a b` (with `a`, `b` nonempty maximal non-whitespace runs
after the marker at a word boundary) followed by a further line `z`, yet
`detect_main_repo` returns `("a", "b\nz")`, not `("a", "b")`: the
regex class `[^ ]` also matches the newline. -/
theorem detect_main_repo_nonspace_run_cex :
    (detect_main_repo "p" (some "r") none "/src"
        "Detected repo: a b\nz" 0).snd = (some "a", some "b\nz")
    ∧ (detect_main_repo "p" (some "r") none "/src"
        "Detected repo: a b\nz" 0).snd ≠ (some "a", some "b") :=
  ⟨rfl, by decide⟩


end OSSFuzz
